import Mathlib

/-!
Verification of the CVBIM facade classification and matching engine.

This file gives a shallow embedding, in Lean 4, of the core geometric
routines of the `Exp.pushbutton/detector` package (the pipeline wired up by
`Exp.pushbutton/script.py`): bounds computation, floor splitting, side
classification, door stud pairing and header matching, per-side coordinate
normalization, YOLO-side scoring and YOLO-to-BIM matching.  Coordinates,
which the source handles as Python floats (millimetres), are modelled as
rationals; Python `None`-able values are modelled with `Option`; functions
that can `raise` are modelled with `Except String` or `Option`; Python
dictionaries whose lookups can fail with `KeyError` are modelled as
association lists with failing lookup.
-/

namespace CVBIM

/-- The `dims` tuple of `core.py` / `geometry.py`:
`(w, d, h, xmin, xmax, ymin, ymax, zmin, zmax)` of an element's bounding box
in millimetres, with named fields instead of tuple indices
(`w = d[0]`, `dep = d[1]`, `h = d[2]`, `xmin = d[3]`, ..., `zmax = d[8]`). -/
structure Dims where
  w : ℚ
  dep : ℚ
  h : ℚ
  xmin : ℚ
  xmax : ℚ
  ymin : ℚ
  ymax : ℚ
  zmin : ℚ
  zmax : ℚ
deriving DecidableEq, Repr

/-- A BIM element as the core borrows it from the host: an integer id plus
the result of `dims(elem, view)`, which is `None` when the element has no
bounding box in the active view. -/
structure Elem where
  id : ℤ
  dims : Option Dims
deriving DecidableEq, Repr

/-- The building footprint `(xmin, xmax, ymin, ymax)` in millimetres. -/
structure Bounds where
  xmin : ℚ
  xmax : ℚ
  ymin : ℚ
  ymax : ℚ
deriving DecidableEq, Repr

/-- `geometry.mid_xy` / `core.center_xy`: centre X,Y of a dims tuple. -/
def mid_xy (d : Dims) : ℚ × ℚ :=
  ((d.xmin + d.xmax) / 2, (d.ymin + d.ymax) / 2)

/-- `core.center_z`: centre Z of a dims tuple. -/
def center_z (d : Dims) : ℚ :=
  (d.zmin + d.zmax) / 2

/-- Python `min(iterable, key=f)` over a non-empty association list of
labelled values: scans in iteration order and keeps the first label whose
value every later value fails to strictly undercut (ties keep the earlier
entry, exactly as CPython's `min`). -/
def pyMinBy (pairs : List (String × ℚ)) : Option String :=
  (pairs.foldl
    (fun acc p =>
      match acc with
      | none => some p
      | some q => if p.2 < q.2 then some p else some q)
    none).map Prod.fst

/-- `classification.classify_side_smart`: side classification.  For
exterior elements, the nearest of the four facade edges, with the
`distances` dict built in insertion order A, C, B, D; for interior
elements, a quadrant-based heuristic.  Returns one of `"A"`, `"B"`,
`"C"`, `"D"`. -/
def classify_side_smart (cx cy : ℚ) (b : Bounds) (is_interior : Bool) : String :=
  let cx_building := (b.xmin + b.xmax) / 2
  let cy_building := (b.ymin + b.ymax) / 2
  let width := b.xmax - b.xmin
  let height := b.ymax - b.ymin
  if is_interior then
    let is_left := cx < cx_building
    let is_bottom := cy < cy_building
    let rel_x := if width > 0 then |cx - cx_building| / (width / 2) else 0
    let rel_y := if height > 0 then |cy - cy_building| / (height / 2) else 0
    if rel_x > rel_y then
      (if is_left then "A" else "C")
    else
      (if is_bottom then "B" else "D")
  else
    (pyMinBy
      [("A", |cx - b.xmin|), ("C", |cx - b.xmax|),
       ("B", |cy - b.ymin|), ("D", |cy - b.ymax|)]).getD ""

/-- `classification.classify_side`: legacy wrapper, exterior mode. -/
def classify_side (cx cy : ℚ) (b : Bounds) : String :=
  classify_side_smart cx cy b false

/-- `classification.compute_floor_split`: collect `d[7]` (bounding-box
bottom Z) of every panel with a bounding box, raise if none, else sort
ascending and return the element at index `len // 2`.  The `.getD _ 0`
default is never used: the index is in range whenever the guard passes. -/
def compute_floor_split (panel_elems : List Elem) : Except String ℚ :=
  if ((panel_elems.filterMap Elem.dims).map Dims.zmin) = [] then
    .error "No panel Z-values found for floor split"
  else
    .ok ((((panel_elems.filterMap Elem.dims).map Dims.zmin).mergeSort
        (fun a b => decide (a ≤ b))).getD
      ((((panel_elems.filterMap Elem.dims).map Dims.zmin).mergeSort
        (fun a b => decide (a ≤ b))).length / 2) 0)

/-- `classification.classify_floor`: floor1 iff the element's bottom Z is
strictly below the split. -/
def classify_floor (d : Dims) (floor_split : ℚ) : String :=
  if d.zmin < floor_split then "floor1" else "floor2"

/-- `core.compute_bounds` (also `classification.classify_all_panels`
STEP 1): gather xmin,xmax and ymin,ymax of every panel bounding box;
raise when the gathered lists are empty (`if not xs or not ys`, modelled
by `min?`/`max?` returning `none` exactly on the empty list), else return
`(min(xs), max(xs), min(ys), max(ys))`. -/
def compute_bounds (panel_elems : List Elem) : Except String Bounds :=
  match ((panel_elems.filterMap Elem.dims).flatMap fun d => [d.xmin, d.xmax]).min?,
        ((panel_elems.filterMap Elem.dims).flatMap fun d => [d.xmin, d.xmax]).max?,
        ((panel_elems.filterMap Elem.dims).flatMap fun d => [d.ymin, d.ymax]).min?,
        ((panel_elems.filterMap Elem.dims).flatMap fun d => [d.ymin, d.ymax]).max? with
  | some xlo, some xhi, some ylo, some yhi => .ok ⟨xlo, xhi, ylo, yhi⟩
  | _, _, _, _ => .error "Cannot determine building bounds - no panels found"

/-- `export.export_bim_geometry`'s inner helper `normalize_x` (closure over
the side's `side_min_x` and `side_width`): the element centre as a fraction
of the side extent, with the `side_width > 0` guard returning `0.0` on a
degenerate side. -/
def normalize_x (side_min_x side_width xmin xmax : ℚ) : ℚ :=
  if side_width > 0 then ((xmin + xmax) / 2 - side_min_x) / side_width else 0

/-- `bim_export._center_norm` (closure over `side_min_x[side]` and
`side_widths[side]`): same normalization with the guard written as
`width <= 0`. -/
def center_norm (local_min width xmin xmax : ℚ) : ℚ :=
  if width ≤ 0 then 0 else ((xmin + xmax) / 2 - local_min) / width

/-- A door-family element together with its dims, i.e. the `(e, d)` tuples
that `split_studs_headers` builds and `group_door_studs` / `match_headers`
consume (the element itself is only ever used through its id). -/
structure ElemDims where
  id : ℤ
  dims : Dims
deriving DecidableEq, Repr

/-- The header-selection loop of `classification.match_headers`: scan the
unused pool with `best_dist` starting at infinity, keeping the first header
whose `abs(center_z(header) - stud_top_z)` strictly improves on the best so
far (`none` models the initial infinite distance, so the first header always
becomes the candidate). -/
def best_header_scan (stud_top_z : ℚ) (pool : List ElemDims) :
    Option (ElemDims × ℚ) :=
  pool.foldl
    (fun acc h =>
      match acc with
      | none => some (h, |center_z h.dims - stud_top_z|)
      | some (b, bd) =>
        if |center_z h.dims - stud_top_z| < bd then
          some (h, |center_z h.dims - stud_top_z|)
        else some (b, bd))
    none

/-- One entry of the `door_output` list built by
`classification.match_headers` / `process_doors_simple`. -/
structure DoorRecord where
  door : ℤ
  stud_left : ℤ
  stud_right : ℤ
  header : Option ℤ
  width_mm : ℚ
  height_mm : ℚ
  dims_left : Dims
  dims_right : Dims
  dims_header : Option Dims
deriving DecidableEq, Repr

/-- The dict appended per door pair by `classification.match_headers`:
width is the distance between the studs' centre X; height is measured from
the header bottom when a header was matched and falls back to the taller
stud height otherwise. -/
def door_record (idx : ℤ) (L R : ElemDims) (hdr : Option ElemDims) : DoorRecord :=
  { door := idx
    stud_left := L.id
    stud_right := R.id
    header := hdr.map ElemDims.id
    width_mm := |(mid_xy R.dims).1 - (mid_xy L.dims).1|
    height_mm :=
      match hdr with
      | some H => |H.dims.zmin - min L.dims.zmin R.dims.zmin|
      | none => max L.dims.h R.dims.h
    dims_left := L.dims
    dims_right := R.dims
    dims_header := hdr.map ElemDims.dims }

/-- The main loop of `classification.match_headers`: for each stud pair in
pairing order, pick the closest unused header to `min` of the two studs'
top Z, remove it from the pool (`unused_headers.remove(best)` removes the
first equal entry, as `List.erase` does), or record the opening with no
header when the pool is exhausted. -/
def match_headers_go (idx : ℤ) :
    List (ElemDims × ElemDims) → List ElemDims → List DoorRecord
  | [], _ => []
  | (L, R) :: rest, pool =>
    match best_header_scan (min L.dims.zmax R.dims.zmax) pool with
    | some (H, _) =>
        door_record idx L R (some H) :: match_headers_go (idx + 1) rest (pool.erase H)
    | none => door_record idx L R none :: match_headers_go (idx + 1) rest pool

/-- The `if not headers` early branch of `classification.match_headers`:
every pair becomes a door with no header. -/
def match_headers_noheader (idx : ℤ) : List (ElemDims × ElemDims) → List DoorRecord
  | [] => []
  | (L, R) :: rest => door_record idx L R none :: match_headers_noheader (idx + 1) rest

/-- `classification.match_headers`. -/
def match_headers (pairs : List (ElemDims × ElemDims)) (headers : List ElemDims) :
    List DoorRecord :=
  if headers = [] then match_headers_noheader 1 pairs
  else match_headers_go 1 pairs headers

/-- The sort key of `classification.group_door_studs`:
`sorted(studs, key=lambda sd: (center_z(sd[1]), mid_xy(sd[1])[0]))`, i.e.
lexicographic comparison of (centre Z, centre X) as Python compares
tuples. -/
def stud_sort_key_le (a b : ElemDims) : Bool :=
  decide (center_z a.dims < center_z b.dims ∨
    (center_z a.dims = center_z b.dims ∧ (mid_xy a.dims).1 ≤ (mid_xy b.dims).1))

/-- The pairing walk of `classification.group_door_studs` over the sorted
stud list: two adjacent studs pair when their centre-Z gap is under the
1000 mm same-floor tolerance (the smaller-centre-X stud going left), else
the first stud is skipped with a warning and the walk resumes at the
second. -/
def group_door_studs_walk : List ElemDims → List (ElemDims × ElemDims)
  | [] => []
  | [_] => []
  | s1 :: s2 :: rest =>
    if |center_z s1.dims - center_z s2.dims| < 1000 then
      (if (mid_xy s1.dims).1 < (mid_xy s2.dims).1 then (s1, s2) else (s2, s1)) ::
        group_door_studs_walk rest
    else
      group_door_studs_walk (s2 :: rest)

/-- `classification.group_door_studs`: raise if fewer than two studs, else
sort by (centre Z, centre X) and walk. -/
def group_door_studs (studs : List ElemDims) :
    Except String (List (ElemDims × ElemDims)) :=
  if studs.length < 2 then
    .error "Need at least 2 studs to form a door pair"
  else
    .ok (group_door_studs_walk (studs.mergeSort stud_sort_key_le))

/-- C2. `classify_side` is a pure total mapping: it returns the side among
A (min-X edge), C (max-X edge), B (min-Y edge), D (max-Y edge) whose edge
distance to `(cx, cy)` is minimal, and when two or more edge distances are
exactly equal the result follows the fixed priority order A, C, B, D; the
result is always one of the four sides (no unclassified outcome). -/
theorem classify_side_nearest_edge_with_priority (cx cy : ℚ) (b : Bounds) :
    (classify_side cx cy b = "A" ↔
      |cx - b.xmin| ≤ |cx - b.xmax| ∧ |cx - b.xmin| ≤ |cy - b.ymin| ∧
      |cx - b.xmin| ≤ |cy - b.ymax|) ∧
    (classify_side cx cy b = "C" ↔
      |cx - b.xmax| < |cx - b.xmin| ∧ |cx - b.xmax| ≤ |cy - b.ymin| ∧
      |cx - b.xmax| ≤ |cy - b.ymax|) ∧
    (classify_side cx cy b = "B" ↔
      |cy - b.ymin| < |cx - b.xmin| ∧ |cy - b.ymin| < |cx - b.xmax| ∧
      |cy - b.ymin| ≤ |cy - b.ymax|) ∧
    (classify_side cx cy b = "D" ↔
      |cy - b.ymax| < |cx - b.xmin| ∧ |cy - b.ymax| < |cx - b.xmax| ∧
      |cy - b.ymax| < |cy - b.ymin|) ∧
    (classify_side cx cy b = "A" ∨ classify_side cx cy b = "C" ∨
      classify_side cx cy b = "B" ∨ classify_side cx cy b = "D") := by
  have e : classify_side cx cy b =
      (if |cy - b.ymax| <
          (if |cy - b.ymin| <
              (if |cx - b.xmax| < |cx - b.xmin| then |cx - b.xmax| else |cx - b.xmin|)
           then |cy - b.ymin|
           else (if |cx - b.xmax| < |cx - b.xmin| then |cx - b.xmax| else |cx - b.xmin|))
       then "D"
       else if |cy - b.ymin| <
              (if |cx - b.xmax| < |cx - b.xmin| then |cx - b.xmax| else |cx - b.xmin|)
       then "B"
       else if |cx - b.xmax| < |cx - b.xmin| then "C" else "A") := by
    unfold classify_side classify_side_smart pyMinBy
    simp only [List.foldl, Bool.false_eq_true, if_false]
    split_ifs <;> (try simp_all) <;>
      (try (split_ifs <;> (try simp_all))) <;>
      (try (split_ifs <;> (try simp_all))) <;>
      (try linarith)
  rw [e]
  split_ifs <;>
    refine ⟨?_, ?_, ?_, ?_, ?_⟩ <;>
      first
        | exact Or.inl rfl
        | exact Or.inr (Or.inl rfl)
        | exact Or.inr (Or.inr (Or.inl rfl))
        | exact Or.inr (Or.inr (Or.inr rfl))
        | exact iff_of_true rfl (by refine ⟨?_, ?_, ?_⟩ <;> linarith)
        | exact iff_of_false (by decide) (by rintro ⟨u, v, w⟩; linarith)

/-- One element of a side's ordered export list, as built by
`export.export_bim_geometry` and consumed by `export.match_yolo_to_bim`. -/
structure BimElem where
  tag : ℤ
  type : String
  id : ℤ
  floor : ℤ
  position : ℚ
  xmin : ℚ
  xmax : ℚ
deriving DecidableEq, Repr

/-- A YOLO detection as consumed by the matcher and the side classifier:
`id`, `label`, `floor`, and `center_xy_norm[0]`. -/
structure Detection where
  id : ℤ
  label : String
  floor : ℤ
  center_x : ℚ
deriving DecidableEq, Repr

/-- A YOLO-BIM match record.  The source builds dicts whose key sets differ
per code path; keys a path does not set are modelled as `none`. -/
structure MatchRecord where
  yolo_id : ℤ
  label : String
  bim_id : Option ℤ
  bim_tag : Option ℤ
  distance : Option ℚ
  note : Option String
  side : Option String
deriving DecidableEq, Repr

/-- `config.YOLO_TO_BIM.get(label, label)`. -/
def yolo_to_bim (label : String) : String :=
  if label = "door" then "door"
  else if label = "window" then "windows"
  else if label = "wall_panels" then "wall_panels"
  else label

/-- The candidate-selection loop of `export.match_yolo_to_bim`:
`best_dist` starts at infinity and a candidate must strictly improve on it,
so the first closest candidate in list order wins. -/
def best_candidate_scan (yolo_x : ℚ) (candidates : List BimElem) :
    Option (BimElem × ℚ) :=
  candidates.foldl
    (fun acc e =>
      match acc with
      | none => some (e, |e.position - yolo_x|)
      | some (b, bd) =>
        if |e.position - yolo_x| < bd then some (e, |e.position - yolo_x|)
        else some (b, bd))
    none

/-- The per-detection body of the matching loop in
`export.match_yolo_to_bim` (classified side already validated): filter the
side's elements by mapped type and floor, then scan for the closest
normalized position. -/
def match_one_detection (side_elements : List BimElem) (cs : String)
    (det : Detection) : MatchRecord :=
  match best_candidate_scan det.center_x
      (side_elements.filter fun e =>
        decide (e.type = yolo_to_bim det.label ∧ e.floor = det.floor)) with
  | none =>
      { yolo_id := det.id, label := det.label, bim_id := none, bim_tag := none,
        distance := none,
        note := some ("No BIM elements match type/floor on side " ++ cs),
        side := none }
  | some (e, d) =>
      { yolo_id := det.id, label := det.label, bim_id := some e.id,
        bim_tag := some e.tag, distance := some d, note := none,
        side := some cs }

/-- `export.match_yolo_to_bim`: the `"INTERIOR"` sentinel short-circuits
with unmatched records and no distance computation; a side missing from the
export likewise; otherwise every detection is matched against the chosen
side's element list, one record per detection. -/
def match_yolo_to_bim (yolo_detections : List Detection)
    (bim_sides : List (String × List BimElem)) (classified_side : String) :
    List MatchRecord :=
  if classified_side = "INTERIOR" then
    yolo_detections.map fun det =>
      { yolo_id := det.id, label := det.label, bim_id := none, bim_tag := none,
        distance := none, note := some "Interior image - no exterior matching",
        side := none }
  else
    match bim_sides.lookup classified_side with
    | none =>
        yolo_detections.map fun det =>
          { yolo_id := det.id, label := det.label, bim_id := none,
            bim_tag := none, distance := none,
            note := some "Side not found in BIM", side := none }
    | some side_elements =>
        yolo_detections.map (match_one_detection side_elements classified_side)

/-- `config.SIDE_WEIGHTS`. -/
def SIDE_WEIGHTS : List (String × ℚ) :=
  [("door", 3), ("windows", 2), ("wall_panels", 1)]

/-- The YOLO-label normalization inside `classify_yolo_side`:
`window -> windows`, `wall-panels -> wall_panels`. -/
def side_weight_label (label : String) : String :=
  if label = "window" then "windows"
  else if label = "wall-panels" then "wall_panels"
  else label

/-- `len(bim_by_side[s][label]) > 0`: the side has at least one element
whose exported type equals the (already normalized) label. -/
def side_has_type (exterior_sides : List (String × List String))
    (s label : String) : Bool :=
  match exterior_sides.lookup s with
  | none => false
  | some tys => tys.contains label

/-- The per-side score accumulation of `classify_yolo_side`: one fixed
weight per detection whose (normalized) label the side has at least one
element of; presence-based, not distance-based. -/
def score_side (yolo_detections : List Detection)
    (exterior_sides : List (String × List String)) (s : String) : ℚ :=
  yolo_detections.foldl
    (fun acc det =>
      match SIDE_WEIGHTS.lookup (side_weight_label det.label) with
      | none => acc
      | some w =>
        if side_has_type exterior_sides s (side_weight_label det.label) then
          acc + w
        else acc)
    0

/-- Python `max(iterable, key=f)` over an association list: first maximal
entry wins (CPython's `max` replaces only on strict improvement). -/
def py_max_entry (pairs : List (String × ℚ)) : Option (String × ℚ) :=
  pairs.foldl
    (fun acc p =>
      match acc with
      | none => some p
      | some q => if p.2 > q.2 then some p else some q)
    none

/-- `classification.classify_yolo_side`: an empty detection list (or an
export with no exterior sides) returns the `"INTERIOR"` sentinel with score
0 before any scoring; the bucket-filling loop raises `KeyError` for an
element type outside the three fixed buckets; otherwise the highest-scoring
side wins, demoted to `"INTERIOR"` when its score is below the confidence
threshold (`config.INTERIOR_THRESHOLD`, passed explicitly here). -/
def classify_yolo_side (yolo_detections : List Detection)
    (exterior_sides : List (String × List String)) (threshold : ℚ) :
    Except String (String × ℚ) :=
  if yolo_detections = [] then .ok ("INTERIOR", 0)
  else if exterior_sides.map Prod.fst = [] then .ok ("INTERIOR", 0)
  else if exterior_sides.any
      (fun sd => sd.2.any fun ty =>
        !(["door", "windows", "wall_panels"].contains ty)) then
    .error "KeyError: element type outside the side buckets"
  else
    match py_max_entry (exterior_sides.map fun sd =>
        (sd.1, score_side yolo_detections exterior_sides sd.1)) with
    | none => .ok ("INTERIOR", 0)
    | some best =>
      if best.2 < threshold then .ok ("INTERIOR", best.2)
      else .ok (best.1, best.2)

/-- `config.SIDES`. -/
def SIDES : List String := ["A", "B", "C", "D"]

/-- `core.init_side_summary`: the per-side dict is created with the keys
`panels`, `floor1`, `floor2`, `windows`, `door` — and no `wall_panels`
key. -/
def init_side_summary : List (String × List (String × List ℤ)) :=
  SIDES.map fun side =>
    (side,
      [("panels", []), ("floor1", []), ("floor2", []), ("windows", []),
        ("door", [])])

/-- `d[key].append(v)` on a Python dict of lists: `KeyError` (modelled as
`none`) when the key is missing, otherwise the list under `key` grows by
`v`. -/
def dict_append (d : List (String × List ℤ)) (key : String) (v : ℤ) :
    Option (List (String × List ℤ)) :=
  match d.lookup key with
  | none => none
  | some l => some (d.map fun kv => if kv.1 = key then (kv.1, l ++ [v]) else kv)

/-- `side_summary[side][key].append(v)`: two nested dict accesses, either
of which can raise `KeyError`. -/
def summary_append (summary : List (String × List (String × List ℤ)))
    (side key : String) (v : ℤ) :
    Option (List (String × List (String × List ℤ))) :=
  match summary.lookup side with
  | none => none
  | some d =>
    match dict_append d key v with
    | none => none
    | some d2 =>
      some (summary.map fun kv => if kv.1 = side then (kv.1, d2) else kv)

/-- One panel group dict of the ungrouped branch of
`classification.classify_all_panels`. -/
structure PanelGroup where
  id : ℤ
  center : ℚ × ℚ
  xmin : ℚ
  xmax : ℚ
  ymin : ℚ
  ymax : ℚ
  zmin : ℚ
  zmax : ℚ
  floor : String
  side : String
  component_count : ℕ
  is_interior : Bool
deriving DecidableEq, Repr

/-- STEP 5 of `classification.classify_all_panels` (ungrouped mode): for
each panel with a bounding box, classify side and floor, build its panel
group, and append its id to `side_summary[side]["wall_panels"]` and
`side_summary[side][floor]`. -/
def classify_panels_loop (is_exterior_element : Dims → Bounds → Bool)
    (bounds : Bounds) (floor_split : ℚ) :
    List Elem → List (String × List (String × List ℤ)) → List PanelGroup →
    Except String (List (String × List (String × List ℤ)) × List PanelGroup)
  | [], summary, groups => .ok (summary, groups)
  | p :: rest, summary, groups =>
    match p.dims with
    | none => classify_panels_loop is_exterior_element bounds floor_split rest summary groups
    | some d =>
      let is_int := ! is_exterior_element d bounds
      let side := classify_side_smart (mid_xy d).1 (mid_xy d).2 bounds is_int
      let floor := classify_floor d floor_split
      let pg : PanelGroup :=
        { id := p.id, center := mid_xy d, xmin := d.xmin, xmax := d.xmax,
          ymin := d.ymin, ymax := d.ymax, zmin := d.zmin, zmax := d.zmax,
          floor := floor, side := side, component_count := 1,
          is_interior := is_int }
      match summary_append summary side "wall_panels" p.id with
      | none => .error "KeyError: wall_panels"
      | some s1 =>
        match summary_append s1 side floor p.id with
        | none => .error ("KeyError: " ++ floor)
        | some s2 =>
          classify_panels_loop is_exterior_element bounds floor_split rest s2
            (groups ++ [pg])

/-- `classification.classify_all_panels` under the repository configuration
`GROUP_PANEL_COMPONENTS = False` (the ungrouped `else` branch): STEP 1
computes the bounds inline (same computation as `core.compute_bounds`),
STEP 2 rejects an empty panel list, STEP 3 computes the floor split, STEP 4
starts from `core.init_side_summary`, STEP 5 classifies every panel.
`is_exterior_element` is imported by `classification.py` from `core`, which
defines no such function anywhere under the repository, so the interior
test is taken as a parameter: what is proved below holds for every choice
of it. -/
def classify_all_panels (is_exterior_element : Dims → Bounds → Bool)
    (panel_elems : List Elem) :
    Except String
      (List (String × List (String × List ℤ)) × Bounds × ℚ × List PanelGroup) :=
  match compute_bounds panel_elems with
  | .error _ => .error "Could not determine building bounds - no panel data"
  | .ok bounds =>
    if panel_elems = [] then .error "No panels found"
    else
      match compute_floor_split panel_elems with
      | .error e => .error e
      | .ok floor_split =>
        match classify_panels_loop is_exterior_element bounds floor_split
            panel_elems init_side_summary [] with
        | .error e => .error e
        | .ok (summary, groups) => .ok (summary, bounds, floor_split, groups)

/-- The concrete panel of the C1 failing input: id 101 with bounding box
`[0,4000] × [0,200] × [0,3000]` mm. -/
def panel_101 : Elem := ⟨101, some ⟨4000, 200, 3000, 0, 4000, 0, 200, 0, 3000⟩⟩

/-- A concrete exported door element used as sample input: tag 1, id 501,
floor 1, normalized position 0.52. -/
def bim_elem_a : BimElem := ⟨1, "door", 501, 1, 52/100, 500, 1500⟩

/-- A concrete detection used as sample input: id 9, a floor-1 door at
normalized x 0.5. -/
def det_a : Detection := ⟨9, "door", 1, 1/2⟩

/-- A tall stud element used as concrete sample input (centre X 50,
centre Z 1000, top Z 2000). -/
def stud_a : ElemDims := ⟨11, ⟨100, 100, 2000, 0, 100, 0, 100, 0, 2000⟩⟩

/-- A second tall stud used as concrete sample input (centre X 1250,
centre Z 1000, top Z 2000). -/
def stud_b : ElemDims := ⟨12, ⟨100, 100, 2000, 1200, 1300, 0, 100, 0, 2000⟩⟩

/-- A header element used as concrete sample input (centre Z 2000). -/
def header_a : ElemDims := ⟨21, ⟨1300, 100, 100, 0, 1300, 0, 100, 1950, 2050⟩⟩

/-- Characterization of Python `min` over a non-empty rational list. -/
theorem qmin_eq_some_iff (l : List ℚ) (a : ℚ) :
    l.min? = some a ↔ a ∈ l ∧ ∀ b ∈ l, a ≤ b := by
  have anti : Std.Antisymm fun x1 x2 : ℚ => x1 ≤ x2 :=
    ⟨fun h h2 => le_antisymm h h2⟩
  exact List.min?_eq_some_iff (fun x => le_refl x) (fun x y => min_choice x y)
    (fun x y z => le_min_iff)

/-- Characterization of Python `max` over a non-empty rational list. -/
theorem qmax_eq_some_iff (l : List ℚ) (a : ℚ) :
    l.max? = some a ↔ a ∈ l ∧ ∀ b ∈ l, b ≤ a := by
  have anti : Std.Antisymm fun x1 x2 : ℚ => x1 ≤ x2 :=
    ⟨fun h h2 => le_antisymm h h2⟩
  exact List.max?_eq_some_iff (fun x => le_refl x) (fun x y => max_choice x y)
    (fun x y z => max_le_iff)

/-- The minimum of the interleaved low/high list built by `compute_bounds`
is the minimum of the lows, when each low is at most its high. -/
theorem min_flat_pairs_mem_lows (ds : List Dims) (flo fhi : Dims → ℚ)
    (hwf : ∀ d ∈ ds, flo d ≤ fhi d) (a : ℚ)
    (hmin : (ds.flatMap fun d => [flo d, fhi d]).min? = some a) :
    a ∈ ds.map flo ∧ ∀ v ∈ ds.map flo, a ≤ v := by
  obtain ⟨hmem, hle⟩ := (qmin_eq_some_iff _ _).mp hmin
  rw [List.mem_flatMap] at hmem
  obtain ⟨d, hd, hin⟩ := hmem
  have hlow : flo d ∈ ds.flatMap fun d => [flo d, fhi d] :=
    List.mem_flatMap.mpr ⟨d, hd, by simp⟩
  constructor
  · rw [List.mem_map]
    refine ⟨d, hd, ?_⟩
    rcases List.mem_pair.mp hin with h1 | h1
    · exact h1.symm
    · exact le_antisymm (le_trans (hwf d hd) h1.ge) (hle _ hlow)
  · intro v hv
    rw [List.mem_map] at hv
    obtain ⟨d2, hd2, rfl⟩ := hv
    exact hle _ (List.mem_flatMap.mpr ⟨d2, hd2, by simp⟩)

/-- The maximum of the interleaved low/high list built by `compute_bounds`
is the maximum of the highs, when each low is at most its high. -/
theorem max_flat_pairs_mem_highs (ds : List Dims) (flo fhi : Dims → ℚ)
    (hwf : ∀ d ∈ ds, flo d ≤ fhi d) (a : ℚ)
    (hmax : (ds.flatMap fun d => [flo d, fhi d]).max? = some a) :
    a ∈ ds.map fhi ∧ ∀ v ∈ ds.map fhi, v ≤ a := by
  obtain ⟨hmem, hge⟩ := (qmax_eq_some_iff _ _).mp hmax
  rw [List.mem_flatMap] at hmem
  obtain ⟨d, hd, hin⟩ := hmem
  have hhigh : fhi d ∈ ds.flatMap fun d => [flo d, fhi d] :=
    List.mem_flatMap.mpr ⟨d, hd, by simp⟩
  constructor
  · rw [List.mem_map]
    refine ⟨d, hd, ?_⟩
    rcases List.mem_pair.mp hin with h1 | h1
    · exact le_antisymm (hge _ hhigh) (h1.le.trans (hwf d hd))
    · exact h1.symm
  · intro v hv
    rw [List.mem_map] at hv
    obtain ⟨d2, hd2, rfl⟩ := hv
    exact hge _ (List.mem_flatMap.mpr ⟨d2, hd2, by simp⟩)

/-- C7. `compute_floor_split` raises exactly when no panel yields a usable
Z statistic; otherwise it returns the element at index `count // 2` of the
ascending-sorted list of the per-panel Z statistics, which is one of the
statistics and lies within their `[min, max]` range. -/
theorem compute_floor_split_is_median (panels : List Elem) :
    ((∃ msg, compute_floor_split panels = .error msg) ↔
      (panels.filterMap Elem.dims).map Dims.zmin = []) ∧
    (∀ (q : ℚ) (zstats sorted : List ℚ), compute_floor_split panels = .ok q →
      zstats = (panels.filterMap Elem.dims).map Dims.zmin →
      sorted = zstats.mergeSort (fun a b => decide (a ≤ b)) →
      sorted[sorted.length / 2]? = some q ∧ q ∈ zstats ∧
      zstats.minimum ≤ (q : WithTop ℚ) ∧ ((q : ℚ) : WithBot ℚ) ≤ zstats.maximum) := by
  constructor
  · unfold compute_floor_split
    split_ifs with h
    · simpa using h
    · simp [h]
  · intro q zstats sorted hok hz hs
    unfold compute_floor_split at hok
    split_ifs at hok with h
    rw [← hz] at hok h
    rw [← hs] at hok
    have hlen : sorted.length = zstats.length := by
      rw [hs]; exact List.length_mergeSort zstats
    have hpos : 0 < sorted.length := by
      rw [hlen]
      exact List.length_pos.mpr h
    have hidx : sorted.length / 2 < sorted.length := Nat.div_lt_self hpos one_lt_two
    have hget : sorted.getD (sorted.length / 2) 0 = q := by
      exact Except.ok.inj hok
    have hsome : sorted[sorted.length / 2]? = some q := by
      rw [List.getElem?_eq_getElem hidx]
      rw [List.getD_eq_getElem?_getD, List.getElem?_eq_getElem hidx] at hget
      simpa using hget
    have hmemsorted : q ∈ sorted := by
      have hm := List.getElem_mem hidx
      rw [List.getElem?_eq_getElem hidx, Option.some.injEq] at hsome
      rwa [hsome] at hm
    have hmem : q ∈ zstats := by
      have hperm : (zstats.mergeSort (fun a b => decide (a ≤ b))).Perm zstats :=
        List.mergeSort_perm zstats _
      exact hperm.mem_iff.mp (hs ▸ hmemsorted)
    exact ⟨hsome, hmem, List.minimum_le_of_mem' hmem, List.le_maximum_of_mem' hmem⟩

/-- Witness for C7 at a concrete two-panel input (one panel without a
bounding box is skipped): statistics `[7, 3]`, sorted `[3, 7]`, index
`2 // 2 = 1`, split `7`. -/
theorem compute_floor_split_is_median_witness :
    ([(3 : ℚ), 7])[([(3 : ℚ), 7]).length / 2]? = some 7 ∧ (7 : ℚ) ∈ [(7 : ℚ), 3] ∧
      ([(7 : ℚ), 3]).minimum ≤ ((7 : ℚ) : WithTop ℚ) ∧
      (((7 : ℚ)) : WithBot ℚ) ≤ ([(7 : ℚ), 3]).maximum :=
  (compute_floor_split_is_median
      [⟨1, some ⟨0, 0, 0, 0, 0, 0, 0, 7, 9⟩⟩, ⟨2, none⟩, ⟨3, some ⟨0, 0, 0, 0, 0, 0, 0, 3, 9⟩⟩]).2
    7 [7, 3] [3, 7]
    (by
      norm_num [compute_floor_split, List.filterMap_cons, List.mergeSort, List.merge]
      intro h
      exact absurd h (List.cons_ne_nil _ _))
    (by norm_num [List.filterMap_cons]) (by rw [List.mergeSort]; norm_num)

/-- C9. Bounds computation fails exactly when the panel list is empty or no
panel yields a bounding box; otherwise the result satisfies
`xmin ≤ xmax ∧ ymin ≤ ymax` unconditionally, and (for well-formed bounding
boxes) its components are the min of all panel X lows, the max of all panel
X highs, the min of all Y lows and the max of all Y highs. -/
theorem compute_bounds_min_max (panels : List Elem) :
    ((∃ msg, compute_bounds panels = .error msg) ↔
      (panels = [] ∨ ∀ p ∈ panels, p.dims = none)) ∧
    (∀ bb : Bounds, compute_bounds panels = .ok bb →
      (bb.xmin ≤ bb.xmax ∧ bb.ymin ≤ bb.ymax) ∧
      ((∀ d ∈ panels.filterMap Elem.dims, d.xmin ≤ d.xmax ∧ d.ymin ≤ d.ymax) →
        (bb.xmin ∈ (panels.filterMap Elem.dims).map Dims.xmin ∧
          ∀ v ∈ (panels.filterMap Elem.dims).map Dims.xmin, bb.xmin ≤ v) ∧
        (bb.xmax ∈ (panels.filterMap Elem.dims).map Dims.xmax ∧
          ∀ v ∈ (panels.filterMap Elem.dims).map Dims.xmax, v ≤ bb.xmax) ∧
        (bb.ymin ∈ (panels.filterMap Elem.dims).map Dims.ymin ∧
          ∀ v ∈ (panels.filterMap Elem.dims).map Dims.ymin, bb.ymin ≤ v) ∧
        (bb.ymax ∈ (panels.filterMap Elem.dims).map Dims.ymax ∧
          ∀ v ∈ (panels.filterMap Elem.dims).map Dims.ymax, v ≤ bb.ymax))) := by
  have hRHS : (panels = [] ∨ ∀ p ∈ panels, p.dims = none) ↔
      panels.filterMap Elem.dims = [] := by
    rw [List.filterMap_eq_nil_iff]
    constructor
    · rintro (rfl | h)
      · exact fun p hp => absurd hp (List.not_mem_nil p)
      · exact h
    · exact fun h => Or.inr h
  by_cases hds : panels.filterMap Elem.dims = []
  · have hxs : ((panels.filterMap Elem.dims).flatMap fun d => [d.xmin, d.xmax]) = [] := by
      rw [hds]; rfl
    have hbounds : compute_bounds panels =
        .error "Cannot determine building bounds - no panels found" := by
      unfold compute_bounds
      rw [hxs]
      rfl
    refine ⟨⟨fun _ => hRHS.mpr hds, fun _ => ⟨_, hbounds⟩⟩, ?_⟩
    intro bb hok
    rw [hbounds] at hok
    cases hok
  · have hxs : ((panels.filterMap Elem.dims).flatMap fun d => [d.xmin, d.xmax]) ≠ [] := by
      rw [Ne, List.flatMap_eq_nil_iff]
      intro hall
      rcases List.exists_mem_of_ne_nil _ hds with ⟨d, hd⟩
      simpa using hall d hd
    have hys : ((panels.filterMap Elem.dims).flatMap fun d => [d.ymin, d.ymax]) ≠ [] := by
      rw [Ne, List.flatMap_eq_nil_iff]
      intro hall
      rcases List.exists_mem_of_ne_nil _ hds with ⟨d, hd⟩
      simpa using hall d hd
    obtain ⟨xlo, hxlo⟩ :
        ∃ a, ((panels.filterMap Elem.dims).flatMap fun d => [d.xmin, d.xmax]).min? = some a := by
      cases h : ((panels.filterMap Elem.dims).flatMap fun d => [d.xmin, d.xmax]).min? with
      | none => exact absurd (List.min?_eq_none_iff.mp h) hxs
      | some a => exact ⟨a, rfl⟩
    obtain ⟨xhi, hxhi⟩ :
        ∃ a, ((panels.filterMap Elem.dims).flatMap fun d => [d.xmin, d.xmax]).max? = some a := by
      cases h : ((panels.filterMap Elem.dims).flatMap fun d => [d.xmin, d.xmax]).max? with
      | none => exact absurd (List.max?_eq_none_iff.mp h) hxs
      | some a => exact ⟨a, rfl⟩
    obtain ⟨ylo, hylo⟩ :
        ∃ a, ((panels.filterMap Elem.dims).flatMap fun d => [d.ymin, d.ymax]).min? = some a := by
      cases h : ((panels.filterMap Elem.dims).flatMap fun d => [d.ymin, d.ymax]).min? with
      | none => exact absurd (List.min?_eq_none_iff.mp h) hys
      | some a => exact ⟨a, rfl⟩
    obtain ⟨yhi, hyhi⟩ :
        ∃ a, ((panels.filterMap Elem.dims).flatMap fun d => [d.ymin, d.ymax]).max? = some a := by
      cases h : ((panels.filterMap Elem.dims).flatMap fun d => [d.ymin, d.ymax]).max? with
      | none => exact absurd (List.max?_eq_none_iff.mp h) hys
      | some a => exact ⟨a, rfl⟩
    have hok : compute_bounds panels = .ok ⟨xlo, xhi, ylo, yhi⟩ := by
      unfold compute_bounds
      rw [hxlo, hxhi, hylo, hyhi]
    refine ⟨⟨?_, fun hr => absurd (hRHS.mp hr) hds⟩, ?_⟩
    · rintro ⟨msg, hmsg⟩
      rw [hok] at hmsg
      cases hmsg
    · intro bb hbb
      rw [hok] at hbb
      obtain rfl := (Except.ok.inj hbb).symm
      have hxminall := (qmin_eq_some_iff _ _).mp hxlo
      have hxmaxall := (qmax_eq_some_iff _ _).mp hxhi
      have hyminall := (qmin_eq_some_iff _ _).mp hylo
      have hymaxall := (qmax_eq_some_iff _ _).mp hyhi
      refine ⟨⟨hxminall.2 _ hxmaxall.1, hyminall.2 _ hymaxall.1⟩, ?_⟩
      intro hwf
      refine ⟨min_flat_pairs_mem_lows _ _ _ (fun d hd => (hwf d hd).1) _ hxlo,
        max_flat_pairs_mem_highs _ _ _ (fun d hd => (hwf d hd).1) _ hxhi,
        min_flat_pairs_mem_lows _ _ _ (fun d hd => (hwf d hd).2) _ hylo,
        max_flat_pairs_mem_highs _ _ _ (fun d hd => (hwf d hd).2) _ hyhi⟩

/-- C4. Per-side normalization maps an element to
`((elem_xmin + elem_xmax)/2 − side_min) / side_width` whenever the side
width is positive (so a centre at `side_min` maps to 0, a centre at
`side_min + side_width` maps to 1, and out-of-range results are preserved
rather than clamped), returns 0 for every element when the side width is 0,
and `bim_export._center_norm` computes the same function. -/
theorem normalize_x_guarded_affine (smin w xmin xmax : ℚ) :
    (w > 0 → normalize_x smin w xmin xmax = ((xmin + xmax) / 2 - smin) / w) ∧
    (w = 0 → normalize_x smin w xmin xmax = 0) ∧
    (w > 0 → (xmin + xmax) / 2 = smin → normalize_x smin w xmin xmax = 0) ∧
    (w > 0 → (xmin + xmax) / 2 = smin + w → normalize_x smin w xmin xmax = 1) ∧
    (w > 0 → (xmin + xmax) / 2 > smin + w → normalize_x smin w xmin xmax > 1) ∧
    (w > 0 → (xmin + xmax) / 2 < smin → normalize_x smin w xmin xmax < 0) ∧
    center_norm smin w xmin xmax = normalize_x smin w xmin xmax := by
  unfold normalize_x center_norm
  refine ⟨?_, ?_, ?_, ?_, ?_, ?_, ?_⟩
  · intro hw
    rw [if_pos hw]
  · intro hw
    rw [hw]
    norm_num
  · intro hw hc
    rw [if_pos hw, hc]
    simp
  · intro hw hc
    rw [if_pos hw, hc]
    field_simp
  · intro hw hc
    rw [if_pos hw, gt_iff_lt, lt_div_iff₀ hw]
    linarith
  · intro hw hc
    rw [if_pos hw]
    exact div_neg_of_neg_of_pos (by linarith) hw
  · by_cases hw : w ≤ 0
    · rw [if_pos hw, if_neg (not_lt.mpr hw)]
    · rw [if_neg hw, if_pos (lt_of_not_ge hw)]

/-- Witness for C4: side `[10, 14]` of width 4; an element centred at 14
normalizes to 1, and with a zero-width side the same element maps to 0. -/
theorem normalize_x_guarded_affine_witness :
    normalize_x 10 4 8 20 = 1 ∧ normalize_x 10 0 8 20 = 0 :=
  ⟨(normalize_x_guarded_affine 10 4 8 20).2.2.2.1 (by norm_num) (by norm_num),
   (normalize_x_guarded_affine 10 0 8 20).2.1 rfl⟩

/-- Witness for C9 at a single concrete panel with bounding box
`[0,4] × [1,3]`: the computed bounds are ordered and hit the panel's lows. -/
theorem compute_bounds_min_max_witness :
    ((0 : ℚ) ≤ 4 ∧ (1 : ℚ) ≤ 3) ∧ (0 : ℚ) ∈ [(0 : ℚ)] :=
  have h := (compute_bounds_min_max [⟨1, some ⟨4, 2, 3, 0, 4, 1, 3, 10, 13⟩⟩]).2
    ⟨0, 4, 1, 3⟩ (by rfl)
  ⟨h.1, (h.2 (by norm_num [List.filterMap_cons])).1.1⟩

/-- Invariant of the header-scan fold, relative to a current best whose
recorded distance is honest. -/
theorem best_header_scan_foldl (t : ℚ) (pool : List ElemDims) (b : ElemDims) (bd : ℚ)
    (hbd : bd = |center_z b.dims - t|) :
    ∃ H dist,
      pool.foldl
        (fun acc h =>
          match acc with
          | none => some (h, |center_z h.dims - t|)
          | some (b, bd) =>
            if |center_z h.dims - t| < bd then some (h, |center_z h.dims - t|)
            else some (b, bd))
        (some (b, bd)) = some (H, dist) ∧
      (H = b ∨ H ∈ pool) ∧ dist = |center_z H.dims - t| ∧ dist ≤ bd ∧
      ∀ K ∈ pool, dist ≤ |center_z K.dims - t| := by
  induction pool generalizing b bd with
  | nil => exact ⟨b, bd, rfl, Or.inl rfl, hbd, le_refl bd, by simp⟩
  | cons k rest ih =>
    simp only [List.foldl_cons]
    by_cases hk : |center_z k.dims - t| < bd
    · rw [if_pos hk]
      obtain ⟨H, dist, heq, hmem, hdist, hleb, hall⟩ := ih k _ rfl
      refine ⟨H, dist, heq, ?_, hdist, le_trans hleb (le_of_lt hk), ?_⟩
      · rcases hmem with rfl | hm
        · exact Or.inr (List.mem_cons_self _ _)
        · exact Or.inr (List.mem_cons_of_mem _ hm)
      · intro K hK
        rcases List.mem_cons.mp hK with rfl | hK2
        · exact hleb
        · exact hall K hK2
    · rw [if_neg hk]
      obtain ⟨H, dist, heq, hmem, hdist, hleb, hall⟩ := ih b bd hbd
      refine ⟨H, dist, heq, ?_, hdist, hleb, ?_⟩
      · rcases hmem with rfl | hm
        · exact Or.inl rfl
        · exact Or.inr (List.mem_cons_of_mem _ hm)
      · intro K hK
        rcases List.mem_cons.mp hK with rfl | hK2
        · exact le_trans hleb (not_lt.mp hk)
        · exact hall K hK2

/-- On a non-empty pool the header scan returns a pool member whose
distance to the target is minimal over the pool. -/
theorem best_header_scan_min (t : ℚ) (pool : List ElemDims) (hne : pool ≠ []) :
    ∃ H dist, best_header_scan t pool = some (H, dist) ∧ H ∈ pool ∧
      dist = |center_z H.dims - t| ∧ ∀ K ∈ pool, dist ≤ |center_z K.dims - t| := by
  cases pool with
  | nil => exact absurd rfl hne
  | cons p rest =>
    unfold best_header_scan
    simp only [List.foldl_cons]
    obtain ⟨H, dist, heq, hmem, hdist, hleb, hall⟩ := best_header_scan_foldl t rest p _ rfl
    refine ⟨H, dist, heq, ?_, hdist, ?_⟩
    · rcases hmem with rfl | hm
      · exact List.mem_cons_self _ _
      · exact List.mem_cons_of_mem _ hm
    · intro K hK
      rcases List.mem_cons.mp hK with rfl | hK2
      · exact hleb
      · exact hall K hK2

/-- The main loop of header matching emits one record per stud pair. -/
theorem match_headers_go_length (idx : ℤ) (pairs : List (ElemDims × ElemDims))
    (pool : List ElemDims) :
    (match_headers_go idx pairs pool).length = pairs.length := by
  induction pairs generalizing idx pool with
  | nil => rfl
  | cons p rest ih =>
    obtain ⟨L, R⟩ := p
    cases h : best_header_scan (min L.dims.zmax R.dims.zmax) pool with
    | none => simp [match_headers_go, h, ih]
    | some Hd => simp [match_headers_go, h, ih]

/-- The no-header branch emits one record per stud pair. -/
theorem match_headers_noheader_length (idx : ℤ) (pairs : List (ElemDims × ElemDims)) :
    (match_headers_noheader idx pairs).length = pairs.length := by
  induction pairs generalizing idx with
  | nil => rfl
  | cons p rest ih =>
    obtain ⟨L, R⟩ := p
    simp [match_headers_noheader, ih]

/-- The no-header branch assigns no header id at all. -/
theorem match_headers_noheader_filterMap (idx : ℤ)
    (pairs : List (ElemDims × ElemDims)) :
    (match_headers_noheader idx pairs).filterMap DoorRecord.header = [] := by
  induction pairs generalizing idx with
  | nil => rfl
  | cons p rest ih =>
    obtain ⟨L, R⟩ := p
    simp [match_headers_noheader, door_record, ih]

/-- A successful header scan returns a member of the pool. -/
theorem best_header_scan_some_mem (t : ℚ) (pool : List ElemDims) (H : ElemDims) (d : ℚ)
    (h : best_header_scan t pool = some (H, d)) : H ∈ pool := by
  have hne : pool ≠ [] := by
    intro hnil
    rw [hnil] at h
    exact absurd h (by simp [best_header_scan])
  obtain ⟨H2, d2, heq, hm, _, _⟩ := best_header_scan_min t pool hne
  have h12 : (H2, d2) = (H, d) := Option.some.inj (heq.symm.trans h)
  have hH : H2 = H := congrArg Prod.fst h12
  exact hH ▸ hm

/-- Every header id assigned by the main loop comes from the pool. -/
theorem match_headers_go_ids_from_pool (pairs : List (ElemDims × ElemDims))
    (pool : List ElemDims) (idx : ℤ) (hid : ℤ) :
    hid ∈ (match_headers_go idx pairs pool).filterMap DoorRecord.header →
    hid ∈ pool.map ElemDims.id := by
  induction pairs generalizing idx pool with
  | nil =>
    intro hmem
    simp [match_headers_go] at hmem
  | cons p rest ih =>
    obtain ⟨L, R⟩ := p
    intro hmem
    cases h : best_header_scan (min L.dims.zmax R.dims.zmax) pool with
    | none =>
      simp only [match_headers_go, h, List.filterMap_cons, door_record,
        Option.map_none'] at hmem
      exact ih pool (idx + 1) hmem
    | some Hd =>
      obtain ⟨H, d⟩ := Hd
      have hmemH : H ∈ pool := best_header_scan_some_mem _ _ _ _ h
      simp only [match_headers_go, h, List.filterMap_cons, door_record,
        Option.map_some'] at hmem
      rcases List.mem_cons.mp hmem with rfl | hmem2
      · exact List.mem_map.mpr ⟨H, hmemH, rfl⟩
      · exact (List.Sublist.map ElemDims.id (List.erase_sublist H pool)).subset
          (ih (pool.erase H) (idx + 1) hmem2)

/-- When the pool's header ids are distinct, the assigned header ids are
distinct: the chosen header is erased from the pool before the remaining
pairs are processed. -/
theorem match_headers_go_ids_nodup (pairs : List (ElemDims × ElemDims))
    (pool : List ElemDims) (idx : ℤ) (hnd : (pool.map ElemDims.id).Nodup) :
    ((match_headers_go idx pairs pool).filterMap DoorRecord.header).Nodup := by
  induction pairs generalizing idx pool with
  | nil => simp [match_headers_go]
  | cons p rest ih =>
    obtain ⟨L, R⟩ := p
    cases h : best_header_scan (min L.dims.zmax R.dims.zmax) pool with
    | none =>
      simp only [match_headers_go, h, List.filterMap_cons, door_record,
        Option.map_none']
      exact ih pool (idx + 1) hnd
    | some Hd =>
      obtain ⟨H, d⟩ := Hd
      have hmemH : H ∈ pool := best_header_scan_some_mem _ _ _ _ h
      have hperm : List.Perm (pool.map ElemDims.id)
          (H.id :: (pool.erase H).map ElemDims.id) :=
        (List.perm_cons_erase hmemH).map ElemDims.id
      have hnd2 : (H.id :: (pool.erase H).map ElemDims.id).Nodup :=
        hperm.nodup_iff.mp hnd
      rw [List.nodup_cons] at hnd2
      simp only [match_headers_go, h, List.filterMap_cons, door_record,
        Option.map_some']
      rw [List.nodup_cons]
      refine ⟨?_, ih (pool.erase H) (idx + 1) hnd2.2⟩
      intro hmem
      exact hnd2.1 (match_headers_go_ids_from_pool rest (pool.erase H) (idx + 1) H.id hmem)

/-- When at least as many unused headers as remaining pairs exist, every
emitted opening carries a header. -/
theorem match_headers_go_all_assigned (pairs : List (ElemDims × ElemDims))
    (pool : List ElemDims) (idx : ℤ) (hlen : pairs.length ≤ pool.length) :
    ∀ r ∈ match_headers_go idx pairs pool, r.header.isSome := by
  induction pairs generalizing idx pool with
  | nil =>
    intro r hr
    simp [match_headers_go] at hr
  | cons p rest ih =>
    obtain ⟨L, R⟩ := p
    have hne : pool ≠ [] := by
      intro hnil
      rw [hnil] at hlen
      simp at hlen
    obtain ⟨H, d, heq, hmemH, _, _⟩ :=
      best_header_scan_min (min L.dims.zmax R.dims.zmax) pool hne
    intro r hr
    simp only [match_headers_go, heq] at hr
    rcases List.mem_cons.mp hr with rfl | hr2
    · simp [door_record]
    · have hlen2 : rest.length ≤ (pool.erase H).length := by
        rw [List.length_erase_of_mem hmemH]
        simp only [List.length_cons] at hlen
        omega
      exact ih (pool.erase H) (idx + 1) hlen2 r hr2

/-- A record list whose members all carry a header loses nothing to
`filterMap`. -/
theorem filterMap_header_length (l : List DoorRecord)
    (h : ∀ r ∈ l, r.header.isSome) :
    (l.filterMap DoorRecord.header).length = l.length := by
  induction l with
  | nil => rfl
  | cons r rest ih =>
    obtain ⟨v, hv⟩ := Option.isSome_iff_exists.mp (h r (List.mem_cons_self r rest))
    rw [List.filterMap_cons, hv]
    simp only [List.length_cons]
    rw [ih fun r2 hr2 => h r2 (List.mem_cons_of_mem r hr2)]

/-- C3. Header matching processes the stud pairs in pairing order and
assigns each pair the currently unused header whose vertical centre is
closest (by absolute difference) to the minimum of the two studs' top Z,
removing it from the pool: one record per pair is always emitted, a pair
processed on an empty pool is still recorded with the header explicitly
absent, every assigned header id comes from the pool, no header id is
assigned twice (for a pool with distinct ids), and with as many headers as
pairs every one of the `N` openings carries a header, the ids all
distinct. -/
theorem match_headers_greedy_one_to_one (pairs : List (ElemDims × ElemDims))
    (headers : List ElemDims) :
    ((match_headers pairs headers).length = pairs.length) ∧
    (∀ (idx : ℤ) (L R : ElemDims) rest pool, pool ≠ [] →
      ∃ H dist, best_header_scan (min L.dims.zmax R.dims.zmax) pool = some (H, dist) ∧
        H ∈ pool ∧ dist = |center_z H.dims - min L.dims.zmax R.dims.zmax| ∧
        (∀ K ∈ pool, dist ≤ |center_z K.dims - min L.dims.zmax R.dims.zmax|) ∧
        match_headers_go idx ((L, R) :: rest) pool =
          door_record idx L R (some H) ::
            match_headers_go (idx + 1) rest (pool.erase H)) ∧
    (∀ (idx : ℤ) (L R : ElemDims) rest,
      match_headers_go idx ((L, R) :: rest) [] =
        door_record idx L R none :: match_headers_go (idx + 1) rest []) ∧
    (∀ hid, hid ∈ (match_headers pairs headers).filterMap DoorRecord.header →
      hid ∈ headers.map ElemDims.id) ∧
    ((headers.map ElemDims.id).Nodup →
      ((match_headers pairs headers).filterMap DoorRecord.header).Nodup) ∧
    (pairs.length = headers.length →
      ((match_headers pairs headers).filterMap DoorRecord.header).length =
        pairs.length) := by
  refine ⟨?_, ?_, ?_, ?_, ?_, ?_⟩
  · unfold match_headers
    split_ifs with h
    · exact match_headers_noheader_length 1 pairs
    · exact match_headers_go_length 1 pairs headers
  · intro idx L R rest pool hne
    obtain ⟨H, dist, heq, hmem, hdist, hall⟩ :=
      best_header_scan_min (min L.dims.zmax R.dims.zmax) pool hne
    exact ⟨H, dist, heq, hmem, hdist, hall, by
      simp only [match_headers_go, heq]⟩
  · intro idx L R rest
    simp only [match_headers_go]
    rfl
  · intro hid hmem
    unfold match_headers at hmem
    split_ifs at hmem with h
    · rw [match_headers_noheader_filterMap] at hmem
      exact absurd hmem (List.not_mem_nil hid)
    · exact match_headers_go_ids_from_pool pairs headers 1 hid hmem
  · intro hnd
    unfold match_headers
    split_ifs with h
    · rw [match_headers_noheader_filterMap]
      exact List.nodup_nil
    · exact match_headers_go_ids_nodup pairs headers 1 hnd
  · intro hlen
    unfold match_headers
    split_ifs with h
    · rw [match_headers_noheader_filterMap]
      rw [h] at hlen
      simp only [List.length_nil] at hlen
      simp [hlen]
    · rw [filterMap_header_length _
        (match_headers_go_all_assigned pairs headers 1 (le_of_eq hlen))]
      exact match_headers_go_length 1 pairs headers

/-- Witness for C3: one stud pair and one header; the pipeline emits one
opening, with exactly one assigned header id, and the head step picks the
single header and erases it from the pool. -/
theorem match_headers_greedy_one_to_one_witness :
    (match_headers [(stud_a, stud_b)] [header_a]).length = 1 ∧
    ((match_headers [(stud_a, stud_b)] [header_a]).filterMap
        DoorRecord.header).Nodup ∧
    ((match_headers [(stud_a, stud_b)] [header_a]).filterMap
        DoorRecord.header).length = 1 ∧
    match_headers_go 5 [(stud_a, stud_b)] [header_a] =
      door_record 5 stud_a stud_b (some header_a) ::
        match_headers_go 6 [] ([header_a].erase header_a) := by
  have h := match_headers_greedy_one_to_one [(stud_a, stud_b)] [header_a]
  refine ⟨h.1, h.2.2.2.2.1 (by decide), h.2.2.2.2.2 (by decide), ?_⟩
  obtain ⟨H, dist, heq, hmem, hd, hmin, hunfold⟩ :=
    h.2.1 5 stud_a stud_b [] [header_a] (by decide)
  have heval : best_header_scan (min stud_a.dims.zmax stud_b.dims.zmax) [header_a] =
      some (header_a, |center_z header_a.dims - min stud_a.dims.zmax stud_b.dims.zmax|) :=
    rfl
  have h12 : (H, dist) =
      (header_a, |center_z header_a.dims - min stud_a.dims.zmax stud_b.dims.zmax|) :=
    Option.some.inj (heq.symm.trans heval)
  have hH : H = header_a := congrArg Prod.fst h12
  rw [hH] at hunfold
  exact hunfold

/-- Every pair emitted by the stud-pairing walk is within the 1000 mm
tolerance and ordered left-to-right by centre X. -/
theorem group_door_studs_walk_pairs (l : List ElemDims) :
    ∀ p ∈ group_door_studs_walk l,
      |center_z p.1.dims - center_z p.2.dims| < 1000 ∧
      (mid_xy p.1.dims).1 ≤ (mid_xy p.2.dims).1 := by
  induction l using group_door_studs_walk.induct with
  | case1 => simp [group_door_studs_walk]
  | case2 s => simp [group_door_studs_walk]
  | case3 s1 s2 rest htol ih =>
    intro p hp
    rw [group_door_studs_walk, if_pos htol] at hp
    rcases List.mem_cons.mp hp with rfl | hp2
    · split_ifs with hx
      · exact ⟨htol, le_of_lt hx⟩
      · exact ⟨by rw [abs_sub_comm]; exact htol, not_lt.mp hx⟩
    · exact ih p hp2
  | case4 s1 s2 rest htol ih =>
    intro p hp
    rw [group_door_studs_walk, if_neg htol] at hp
    exact ih p hp

/-- The studs appearing in the walk's pairs form a sub-multiset of the
input: no stud is used twice. -/
theorem group_door_studs_walk_multiset (l : List ElemDims) :
    (↑((group_door_studs_walk l).flatMap fun p => [p.1, p.2]) : Multiset ElemDims) ≤
      (↑l : Multiset ElemDims) := by
  induction l using group_door_studs_walk.induct with
  | case1 => simp [group_door_studs_walk]
  | case2 s => simp [group_door_studs_walk]
  | case3 s1 s2 rest htol ih =>
    rw [group_door_studs_walk, if_pos htol]
    have hpair :
        (↑(((if (mid_xy s1.dims).1 < (mid_xy s2.dims).1 then (s1, s2) else (s2, s1)) ::
            group_door_studs_walk rest).flatMap fun p => [p.1, p.2]) :
          Multiset ElemDims) =
          s1 ::ₘ s2 ::ₘ
            ↑((group_door_studs_walk rest).flatMap fun p => [p.1, p.2]) := by
      split_ifs with hx
      · simp [List.flatMap_cons]
      · simp [List.flatMap_cons, Multiset.cons_swap]
        exact List.Perm.swap s1 s2 _
    rw [hpair]
    calc s1 ::ₘ s2 ::ₘ (↑((group_door_studs_walk rest).flatMap fun p => [p.1, p.2]) :
        Multiset ElemDims)
        ≤ s1 ::ₘ s2 ::ₘ (↑rest : Multiset ElemDims) :=
          Multiset.cons_le_cons s1 (Multiset.cons_le_cons s2 ih)
      _ = ↑(s1 :: s2 :: rest) := by simp
  | case4 s1 s2 rest htol ih =>
    rw [group_door_studs_walk, if_neg htol]
    refine le_trans ih ?_
    have : (↑(s2 :: rest) : Multiset ElemDims) ≤ ↑(s1 :: s2 :: rest) := by
      simp only [← Multiset.cons_coe]
      exact Multiset.le_cons_self _ _
    exact this

/-- A pair of a pair list contributes both components to the flattened
stud multiset. -/
theorem mem_pairs_flat_le (pairs : List (ElemDims × ElemDims))
    (p : ElemDims × ElemDims) (hp : p ∈ pairs) :
    (↑[p.1, p.2] : Multiset ElemDims) ≤
      ↑(pairs.flatMap fun q => [q.1, q.2]) := by
  induction pairs with
  | nil => cases hp
  | cons q rest ih =>
    rcases List.mem_cons.mp hp with rfl | hp2
    · rw [List.flatMap_cons]
      have : (↑([p.1, p.2] ++ rest.flatMap fun q => [q.1, q.2]) : Multiset ElemDims) =
          ↑[p.1, p.2] + ↑(rest.flatMap fun q => [q.1, q.2]) := by simp
      rw [this]
      exact Multiset.le_add_right _ _
    · rw [List.flatMap_cons]
      have : (↑([q.1, q.2] ++ rest.flatMap fun q => [q.1, q.2]) : Multiset ElemDims) =
          ↑(rest.flatMap fun q => [q.1, q.2]) + ↑[q.1, q.2] := by
        simp [add_comm]
      rw [this]
      exact le_trans (ih hp2) (Multiset.le_add_right _ _)

/-- From `{s, t} ≤ S` (with multiplicity) the partner `t` survives erasing
one occurrence of `s`. -/
theorem pair_le_mem_erase (S : Multiset ElemDims) (s t : ElemDims)
    (h : (s ::ₘ t ::ₘ 0) ≤ S) : t ∈ S.erase s := by
  by_cases hst : t = s
  · subst hst
    have hc : 2 ≤ S.count t := by
      have := Multiset.count_le_of_le t h
      simpa [Multiset.count_cons_self] using this
    have hpos : 0 < (S.erase t).count t := by
      rw [Multiset.count_erase_self]
      omega
    exact Multiset.count_pos.mp hpos
  · have ht : t ∈ S := by
      have := Multiset.count_le_of_le t h
      rw [Multiset.count_cons_of_ne hst, Multiset.count_cons_self] at this
      simp only [Multiset.count_zero] at this
      exact Multiset.count_pos.mp (by omega)
    exact (Multiset.mem_erase_of_ne hst).mpr ht

/-- C8. Stud pairing sorts by (centre Z, centre X) and walks the sorted
list: adjacent studs under consideration pair exactly when their centre-Z
gap is under 1000 mm, with the smaller-centre-X stud as left; each emitted
pair is within tolerance and X-ordered; every stud appears in at most one
pair (sub-multiset, with multiplicity); and a stud whose centre Z is at
least 1000 mm from every other stud appears in no pair. -/
theorem group_door_studs_pairing (studs : List ElemDims) (h2 : 2 ≤ studs.length) :
    ∃ pairs, group_door_studs studs = .ok pairs ∧
      pairs = group_door_studs_walk (studs.mergeSort stud_sort_key_le) ∧
      (∀ (a b : ElemDims) (rest : List ElemDims),
        |center_z a.dims - center_z b.dims| < 1000 →
        group_door_studs_walk (a :: b :: rest) =
          (if (mid_xy a.dims).1 < (mid_xy b.dims).1 then (a, b) else (b, a)) ::
            group_door_studs_walk rest) ∧
      (∀ (a b : ElemDims) (rest : List ElemDims),
        ¬ |center_z a.dims - center_z b.dims| < 1000 →
        group_door_studs_walk (a :: b :: rest) = group_door_studs_walk (b :: rest)) ∧
      (∀ p ∈ pairs, |center_z p.1.dims - center_z p.2.dims| < 1000 ∧
        (mid_xy p.1.dims).1 ≤ (mid_xy p.2.dims).1) ∧
      ((↑(pairs.flatMap fun p => [p.1, p.2]) : Multiset ElemDims) ≤ ↑studs) ∧
      (∀ s ∈ studs,
        (∀ t ∈ (↑studs : Multiset ElemDims).erase s,
          ¬ |center_z s.dims - center_z t.dims| < 1000) →
        s ∉ pairs.flatMap fun p => [p.1, p.2]) := by
  refine ⟨group_door_studs_walk (studs.mergeSort stud_sort_key_le), ?_, rfl,
    ?_, ?_, group_door_studs_walk_pairs _, ?_, ?_⟩
  · unfold group_door_studs
    rw [if_neg (not_lt.mpr h2)]
  · intro a b rest htol
    rw [group_door_studs_walk, if_pos htol]
  · intro a b rest htol
    rw [group_door_studs_walk, if_neg htol]
  · have hperm : (↑(studs.mergeSort stud_sort_key_le) : Multiset ElemDims) = ↑studs :=
      Multiset.coe_eq_coe.mpr (List.mergeSort_perm studs stud_sort_key_le)
    exact hperm ▸ group_door_studs_walk_multiset (studs.mergeSort stud_sort_key_le)
  · intro s hs hfar hmem
    obtain ⟨p, hp, hsp⟩ := List.mem_flatMap.mp hmem
    have hprops := group_door_studs_walk_pairs (studs.mergeSort stud_sort_key_le) p hp
    have hle : (↑[p.1, p.2] : Multiset ElemDims) ≤ ↑studs := by
      refine le_trans (mem_pairs_flat_le _ p hp) ?_
      have hperm : (↑(studs.mergeSort stud_sort_key_le) : Multiset ElemDims) = ↑studs :=
        Multiset.coe_eq_coe.mpr (List.mergeSort_perm studs stud_sort_key_le)
      exact hperm ▸ group_door_studs_walk_multiset (studs.mergeSort stud_sort_key_le)
    have hle2 : (p.1 ::ₘ p.2 ::ₘ 0) ≤ (↑studs : Multiset ElemDims) := by
      simpa using hle
    rcases List.mem_pair.mp hsp with rfl | rfl
    · have hterase : p.2 ∈ (↑studs : Multiset ElemDims).erase p.1 :=
        pair_le_mem_erase _ _ _ hle2
      exact hfar p.2 hterase hprops.1
    · have hterase : p.1 ∈ (↑studs : Multiset ElemDims).erase p.2 := by
        refine pair_le_mem_erase _ _ _ ?_
        rw [Multiset.cons_swap]
        exact hle2
      exact hfar p.1 hterase (by rw [abs_sub_comm]; exact hprops.1)

/-- Witness for C8: two studs on the same floor (centre-Z gap 0) pair up
left-to-right. -/
theorem group_door_studs_pairing_witness :
    group_door_studs [stud_a, stud_b] = .ok [(stud_a, stud_b)] := by
  obtain ⟨pairs, hok, hpeq, hpair_eq, hskip_eq, hprops, hmul, hloner⟩ :=
    group_door_studs_pairing [stud_a, stud_b] (by decide)
  have hsort : [stud_a, stud_b].mergeSort stud_sort_key_le = [stud_a, stud_b] := by
    rw [List.mergeSort]
    norm_num [stud_sort_key_le, center_z, mid_xy, stud_a, stud_b, List.mergeSort]
  have hwalk : group_door_studs_walk [stud_a, stud_b] = [(stud_a, stud_b)] := by
    rw [hpair_eq stud_a stud_b [] (by norm_num [center_z, stud_a, stud_b])]
    norm_num [mid_xy, stud_a, stud_b, group_door_studs_walk]
  rw [hok, hpeq, hsort, hwalk]

/-- Invariant of the candidate-scan fold: the result is at most the
running best, no worse than any scanned candidate, and any candidate that
displaced the running best is the first one at its distance. -/
theorem best_candidate_scan_foldl (x : ℚ) (rest : List BimElem) (b : BimElem) (bd : ℚ)
    (hbd : bd = |b.position - x|) :
    ∃ e d,
      rest.foldl
        (fun acc e =>
          match acc with
          | none => some (e, |e.position - x|)
          | some (b, bd) =>
            if |e.position - x| < bd then some (e, |e.position - x|)
            else some (b, bd))
        (some (b, bd)) = some (e, d) ∧
      d = |e.position - x| ∧ d ≤ bd ∧ (∀ K ∈ rest, d ≤ |K.position - x|) ∧
      (e = b ∨ ∃ r1 r2, rest = r1 ++ e :: r2 ∧ d < bd ∧
        ∀ K ∈ r1, d < |K.position - x|) := by
  induction rest generalizing b bd with
  | nil => exact ⟨b, bd, rfl, hbd, le_refl bd, by simp, Or.inl rfl⟩
  | cons k tail ih =>
    simp only [List.foldl_cons]
    by_cases hk : |k.position - x| < bd
    · rw [if_pos hk]
      obtain ⟨e, d, heq, hde, hdb, hall, hfirst⟩ := ih k _ rfl
      refine ⟨e, d, heq, hde, le_trans hdb (le_of_lt hk), ?_, ?_⟩
      · intro K hK
        rcases List.mem_cons.mp hK with rfl | hK2
        · exact hdb
        · exact hall K hK2
      · rcases hfirst with rfl | ⟨r1, r2, hsplit, hlt, hr1⟩
        · exact Or.inr ⟨[], tail, rfl, by rw [hde]; exact hk, by simp⟩
        · refine Or.inr ⟨k :: r1, r2, by rw [hsplit, List.cons_append], lt_trans hlt hk, ?_⟩
          intro K hK
          rcases List.mem_cons.mp hK with rfl | hK2
          · exact hlt
          · exact hr1 K hK2
    · rw [if_neg hk]
      obtain ⟨e, d, heq, hde, hdb, hall, hfirst⟩ := ih b bd hbd
      refine ⟨e, d, heq, hde, hdb, ?_, ?_⟩
      · intro K hK
        rcases List.mem_cons.mp hK with rfl | hK2
        · exact le_trans hdb (not_lt.mp hk)
        · exact hall K hK2
      · rcases hfirst with rfl | ⟨r1, r2, hsplit, hlt, hr1⟩
        · exact Or.inl rfl
        · refine Or.inr ⟨k :: r1, r2, by rw [hsplit, List.cons_append], hlt, ?_⟩
          intro K hK
          rcases List.mem_cons.mp hK with rfl | hK2
          · exact lt_of_lt_of_le hlt (not_lt.mp hk)
          · exact hr1 K hK2

/-- On a non-empty candidate list the scan returns the first candidate of
minimal distance to the detection. -/
theorem best_candidate_scan_first (x : ℚ) (cands : List BimElem) (hne : cands ≠ []) :
    ∃ e d l1 l2, best_candidate_scan x cands = some (e, d) ∧
      cands = l1 ++ e :: l2 ∧ d = |e.position - x| ∧
      (∀ K ∈ cands, d ≤ |K.position - x|) ∧
      (∀ K ∈ l1, d < |K.position - x|) := by
  cases cands with
  | nil => exact absurd rfl hne
  | cons p tail =>
    unfold best_candidate_scan
    simp only [List.foldl_cons]
    obtain ⟨e, d, heq, hde, hdb, hall, hfirst⟩ := best_candidate_scan_foldl x tail p _ rfl
    rcases hfirst with rfl | ⟨r1, r2, hsplit, hlt, hr1⟩
    · refine ⟨e, d, [], tail, heq, rfl, hde, ?_, by simp⟩
      intro K hK
      rcases List.mem_cons.mp hK with rfl | hK2
      · exact hdb
      · exact hall K hK2
    · refine ⟨e, d, p :: r1, r2, heq, by rw [hsplit, List.cons_append], hde, ?_, ?_⟩
      · intro K hK
        rcases List.mem_cons.mp hK with rfl | hK2
        · exact hdb
        · exact hall K hK2
      · intro K hK
        rcases List.mem_cons.mp hK with rfl | hK2
        · exact hlt
        · exact hr1 K hK2

/-- C5. For a detection with a non-empty candidate set (side elements of
matching mapped type and floor), the matcher records the candidate of
minimal |candidate position − detection x|, breaking ties in favour of the
first candidate in list order, with the distance recorded exactly; in
particular a sole candidate is matched at distance
|candidate position − detection position| whatever its absolute position. -/
theorem match_one_detection_nearest (side_elements : List BimElem) (cs : String)
    (det : Detection) (candidates : List BimElem)
    (hc : candidates = side_elements.filter fun e =>
      decide (e.type = yolo_to_bim det.label ∧ e.floor = det.floor))
    (hne : candidates ≠ []) :
    ∃ e d l1 l2,
      best_candidate_scan det.center_x candidates = some (e, d) ∧
      match_one_detection side_elements cs det =
        { yolo_id := det.id, label := det.label, bim_id := some e.id,
          bim_tag := some e.tag, distance := some d, note := none,
          side := some cs } ∧
      candidates = l1 ++ e :: l2 ∧ d = |e.position - det.center_x| ∧
      (∀ K ∈ candidates, d ≤ |K.position - det.center_x|) ∧
      (∀ K ∈ l1, d < |K.position - det.center_x|) ∧
      (∀ e0, candidates = [e0] → e = e0 ∧ d = |e0.position - det.center_x|) := by
  obtain ⟨e, d, l1, l2, heq, hsplit, hde, hall, hfirst⟩ :=
    best_candidate_scan_first det.center_x candidates hne
  refine ⟨e, d, l1, l2, heq, ?_, hsplit, hde, hall, hfirst, ?_⟩
  · unfold match_one_detection
    rw [← hc, heq]
  · intro e0 h0
    rw [h0] at hsplit
    cases l1 with
    | nil =>
      rw [List.nil_append] at hsplit
      injection hsplit.symm with h1 h2
      refine ⟨h1, ?_⟩
      rw [← h1]
      exact hde
    | cons a t =>
      rw [List.cons_append] at hsplit
      injection hsplit.symm with h1 h2
      exact absurd h2 (List.append_ne_nil_of_right_ne_nil t (List.cons_ne_nil e l2))

/-- Witness for C5: a single floor-1 door candidate at normalized position
0.52 against a detection at 0.5 is matched at distance 0.02 — via the
sole-candidate conjunct of the theorem. -/
theorem match_one_detection_nearest_witness :
    match_one_detection [bim_elem_a] "A" det_a =
      { yolo_id := 9, label := "door", bim_id := some 501, bim_tag := some 1,
        distance := some (1/50), note := none, side := some "A" } := by
  obtain ⟨e, d, l1, l2, hscan, hrec, hsplit, hd, hmin, hfirst, hsingle⟩ :=
    match_one_detection_nearest [bim_elem_a] "A" det_a [bim_elem_a]
      (by simp [List.filter, bim_elem_a, det_a, yolo_to_bim]) (by decide)
  obtain ⟨rfl, hd0⟩ := hsingle bim_elem_a rfl
  rw [hrec, hd0]
  norm_num [bim_elem_a, det_a]

/-- C6. The matcher emits exactly one record per input detection; under the
`"INTERIOR"` sentinel every record carries no matched element, no distance
and the fixed human-readable reason; and a detection with an empty
candidate set for its mapped type and floor yields a record with no matched
element and a reason while the remaining detections are still processed
(the record is in the full output, whose length is preserved). -/
theorem match_yolo_to_bim_one_record_each (yolo_detections : List Detection)
    (bim_sides : List (String × List BimElem)) (cs : String) :
    ((match_yolo_to_bim yolo_detections bim_sides cs).length =
      yolo_detections.length) ∧
    (cs = "INTERIOR" → ∀ r ∈ match_yolo_to_bim yolo_detections bim_sides cs,
      r.bim_id = none ∧ r.distance = none ∧
      r.note = some "Interior image - no exterior matching") ∧
    (∀ (side_elements : List BimElem) (det : Detection),
      bim_sides.lookup cs = some side_elements →
      det ∈ yolo_detections →
      (side_elements.filter fun e =>
        decide (e.type = yolo_to_bim det.label ∧ e.floor = det.floor)) = [] →
      match_one_detection side_elements cs det =
        { yolo_id := det.id, label := det.label, bim_id := none,
          bim_tag := none, distance := none,
          note := some ("No BIM elements match type/floor on side " ++ cs),
          side := none } ∧
      (cs ≠ "INTERIOR" →
        match_one_detection side_elements cs det ∈
          match_yolo_to_bim yolo_detections bim_sides cs)) := by
  refine ⟨?_, ?_, ?_⟩
  · unfold match_yolo_to_bim
    split_ifs with h
    · exact List.length_map _ _
    · cases bim_sides.lookup cs with
      | none => exact List.length_map _ _
      | some side_elements => exact List.length_map _ _
  · intro h r hr
    unfold match_yolo_to_bim at hr
    rw [if_pos h] at hr
    obtain ⟨det, _, rfl⟩ := List.mem_map.mp hr
    exact ⟨rfl, rfl, rfl⟩
  · intro side_elements det hlookup hdet hfilter
    constructor
    · unfold match_one_detection
      rw [hfilter]
      rfl
    · intro hcs
      unfold match_yolo_to_bim
      rw [if_neg hcs, hlookup]
      exact List.mem_map_of_mem _ hdet

/-- Witness for C6: one detection against an export whose side `"A"` has no
elements; under the sentinel the record is unmatched with the fixed note,
and on side `"A"` the no-candidate record is emitted and present in the
(length-preserving) output. -/
theorem match_yolo_to_bim_one_record_each_witness :
    (match_yolo_to_bim [det_a] [("A", [])] "INTERIOR").length = 1 ∧
    ({ yolo_id := 9, label := "door", bim_id := none, bim_tag := none,
        distance := none, note := some "Interior image - no exterior matching",
        side := none } : MatchRecord).bim_id = none ∧
    match_one_detection [] "A" det_a =
      { yolo_id := 9, label := "door", bim_id := none, bim_tag := none,
        distance := none,
        note := some "No BIM elements match type/floor on side A",
        side := none } ∧
    match_one_detection [] "A" det_a ∈ match_yolo_to_bim [det_a] [("A", [])] "A" := by
  have hI := match_yolo_to_bim_one_record_each [det_a] [("A", [])] "INTERIOR"
  have hA := match_yolo_to_bim_one_record_each [det_a] [("A", [])] "A"
  obtain ⟨hrec, hmem⟩ := hA.2.2 [] det_a (by decide) (List.mem_singleton.mpr rfl) rfl
  refine ⟨hI.1, ?_, ?_, hmem (by decide)⟩
  · exact (hI.2.1 rfl
      { yolo_id := 9, label := "door", bim_id := none, bim_tag := none,
        distance := none, note := some "Interior image - no exterior matching",
        side := none } (by simp [match_yolo_to_bim, det_a])).1
  · rw [hrec]
    decide

/-- C10. With an empty detection list, side classification returns the
`"INTERIOR"` sentinel with score 0.0 immediately: the result is the same
for every BIM export content and every confidence threshold. -/
theorem classify_yolo_side_empty_dets (exterior_sides : List (String × List String))
    (threshold : ℚ) :
    classify_yolo_side [] exterior_sides threshold = .ok ("INTERIOR", 0) := by
  unfold classify_yolo_side
  rw [if_pos rfl]

/-- Appending to the `wall_panels` key of a freshly initialized side
summary fails for every side name: `core.init_side_summary` does not create
that key. -/
theorem summary_append_wall_panels (s : String) (v : ℤ) :
    summary_append init_side_summary s "wall_panels" v = none := by
  unfold summary_append
  cases h : init_side_summary.lookup s with
  | none => rfl
  | some d =>
    have hd : d =
        [("panels", []), ("floor1", []), ("floor2", []), ("windows", []),
          ("door", [])] := by
      unfold init_side_summary SIDES at h
      simp only [List.map_cons, List.map_nil, List.lookup] at h
      split at h
      · simp_all
      · split at h
        · simp_all
        · split at h
          · simp_all
          · split at h <;> simp_all
    rw [hd]
    rfl

/-- The classification loop of `classify_all_panels` fails with
`KeyError: wall_panels` as soon as it meets a panel with a bounding box:
the summary is still the freshly initialized one when the first valid panel
is processed. -/
theorem classify_panels_loop_fails (is_ext : Dims → Bounds → Bool)
    (bounds : Bounds) (fs : ℚ) (panels : List Elem) (groups : List PanelGroup)
    (hval : ∃ p ∈ panels, p.dims ≠ none) :
    classify_panels_loop is_ext bounds fs panels init_side_summary groups =
      .error "KeyError: wall_panels" := by
  induction panels generalizing groups with
  | nil =>
    obtain ⟨p, hp, _⟩ := hval
    exact absurd hp (List.not_mem_nil p)
  | cons q rest ih =>
    cases hq : q.dims with
    | none =>
      obtain ⟨p, hp, hpd⟩ := hval
      rcases List.mem_cons.mp hp with rfl | hp2
      · exact absurd hq hpd
      · simp only [classify_panels_loop, hq]
        exact ih groups ⟨p, hp2, hpd⟩
    | some d =>
      simp only [classify_panels_loop, hq, summary_append_wall_panels]

/-- `compute_bounds` succeeds whenever some panel has a bounding box. -/
theorem compute_bounds_is_ok (panels : List Elem)
    (hds : panels.filterMap Elem.dims ≠ []) :
    ∃ bb, compute_bounds panels = .ok bb := by
  have hxs : ((panels.filterMap Elem.dims).flatMap fun d => [d.xmin, d.xmax]) ≠ [] := by
    rw [Ne, List.flatMap_eq_nil_iff]
    intro hall
    rcases List.exists_mem_of_ne_nil _ hds with ⟨d, hd⟩
    simpa using hall d hd
  have hys : ((panels.filterMap Elem.dims).flatMap fun d => [d.ymin, d.ymax]) ≠ [] := by
    rw [Ne, List.flatMap_eq_nil_iff]
    intro hall
    rcases List.exists_mem_of_ne_nil _ hds with ⟨d, hd⟩
    simpa using hall d hd
  unfold compute_bounds
  cases hx1 : ((panels.filterMap Elem.dims).flatMap fun d => [d.xmin, d.xmax]).min? with
  | none => exact absurd (List.min?_eq_none_iff.mp hx1) hxs
  | some xlo =>
    cases hx2 : ((panels.filterMap Elem.dims).flatMap fun d => [d.xmin, d.xmax]).max? with
    | none => exact absurd (List.max?_eq_none_iff.mp hx2) hxs
    | some xhi =>
      cases hy1 : ((panels.filterMap Elem.dims).flatMap fun d => [d.ymin, d.ymax]).min? with
      | none => exact absurd (List.min?_eq_none_iff.mp hy1) hys
      | some ylo =>
        cases hy2 : ((panels.filterMap Elem.dims).flatMap fun d => [d.ymin, d.ymax]).max? with
        | none => exact absurd (List.max?_eq_none_iff.mp hy2) hys
        | some yhi => exact ⟨⟨xlo, xhi, ylo, yhi⟩, rfl⟩

/-- `compute_floor_split` succeeds whenever some panel has a bounding
box. -/
theorem compute_floor_split_is_ok (panels : List Elem)
    (hds : panels.filterMap Elem.dims ≠ []) :
    ∃ q, compute_floor_split panels = .ok q := by
  unfold compute_floor_split
  rw [if_neg (by simpa using hds)]
  exact ⟨_, rfl⟩

/-- On any panel list containing at least one panel with a valid bounding
box, `classify_all_panels` raises `KeyError: wall_panels`, for every choice
of the (missing) interior test: the loop writes to
`side_summary[side]["wall_panels"]`, a key `core.init_side_summary` never
creates. -/
theorem classify_all_panels_always_keyerror (is_ext : Dims → Bounds → Bool)
    (panels : List Elem) (p : Elem) (hp : p ∈ panels) (hd : p.dims ≠ none) :
    classify_all_panels is_ext panels = .error "KeyError: wall_panels" := by
  have hds : panels.filterMap Elem.dims ≠ [] := by
    intro hnil
    rw [List.filterMap_eq_nil_iff] at hnil
    exact hd (hnil p hp)
  obtain ⟨bb, hbb⟩ := compute_bounds_is_ok panels hds
  obtain ⟨q, hq⟩ := compute_floor_split_is_ok panels hds
  have hne : panels ≠ [] := by
    rintro rfl
    exact absurd hp (List.not_mem_nil p)
  simp only [classify_all_panels, hbb, hq]
  rw [if_neg hne, classify_panels_loop_fails is_ext bb q panels [] ⟨p, hp, hd⟩]

/-- C1. Panel classification never completes on a non-empty panel list
with a valid bounding box: evaluated at the concrete one-panel failing
input, under either interior convention, the run aborts with
`KeyError: wall_panels` instead of recording the panel in a side's panel
list and floor sub-list. -/
theorem classify_all_panels_keyerror_at_input :
    classify_all_panels (fun _ _ => true) [panel_101] =
      .error "KeyError: wall_panels" ∧
    classify_all_panels (fun _ _ => false) [panel_101] =
      .error "KeyError: wall_panels" :=
  ⟨classify_all_panels_always_keyerror (fun _ _ => true) [panel_101] panel_101
      (List.mem_singleton.mpr rfl) (by simp [panel_101]),
    classify_all_panels_always_keyerror (fun _ _ => false) [panel_101] panel_101
      (List.mem_singleton.mpr rfl) (by simp [panel_101])⟩

end CVBIM
